import Mathlib

/-!
Verification of the BOM reconciliation core (classifier, normalizer,
knowledge store, matcher) against its natural-language specification.
The definitions below are a shallow embedding of the Python sources in
`backend/agents/extraction_agent.py`, `backend/database/knowledge_base.py`
and `backend/database/item_matcher.py`.
-/

namespace Bom

/-! ## String primitives (Python string operations used by the sources) -/

/-- Characters kept by the normalizer: alphanumeric or whitespace.
Embeds `char.isalnum() or char.isspace()` from `normalize_material_name`. -/
def keepChar (c : Char) : Bool := c.isAlphanum || c.isWhitespace

/-- Python `str.strip()`: drop leading and trailing whitespace. -/
def pyStrip (l : List Char) : List Char :=
  ((l.dropWhile Char.isWhitespace).reverse.dropWhile Char.isWhitespace).reverse

/-- Python `str.split()` with no separator: split on whitespace runs, with no
empty pieces.  `acc` holds the characters of the current word, reversed. -/
def pySplitAux : List Char → List Char → List (List Char)
  | [], acc => if acc.isEmpty then [] else [acc.reverse]
  | c :: cs, acc =>
    if c.isWhitespace then
      if acc.isEmpty then pySplitAux cs [] else acc.reverse :: pySplitAux cs []
    else pySplitAux cs (c :: acc)

/-- Python `str.split()` with no separator. -/
def pySplit (l : List Char) : List (List Char) := pySplitAux l []

/-- Python `' '.join(words)`: the words separated by single spaces. -/
def joinSpace : List (List Char) → List Char
  | [] => []
  | [w] => w
  | w :: ws => w ++ ' ' :: joinSpace ws

/-- Core of `KnowledgeBase.normalize_material_name` on character lists:
lower-case, strip, keep only alphanumeric/whitespace characters, then
`' '.join(s.split())` to collapse whitespace runs. -/
def normalizeL (l : List Char) : List Char :=
  joinSpace (pySplit ((pyStrip (l.map Char.toLower)).filter keepChar))

/-- `KnowledgeBase.normalize_material_name`.  The argument is optional to model
the Python `None` case; `if not material_name: return ""` maps both `None` and
the empty string to the empty string. -/
def normalize_material_name (m : Option String) : String :=
  match m with
  | none => ""
  | some s => if s = "" then "" else String.mk (normalizeL s.data)

/-- Normalization of a (non-null) material name string. -/
def normalizeName (s : String) : String := normalize_material_name (some s)

/-! ## Classifier (`ExtractionAgent._classify_material`) -/

/-- Modelled from the spec: the `QAClassificationLabel` enumeration is declared
in `backend/models/schemas.py`, which is not among the sources; the ten values
used by `_classify_material` in `extraction_agent.py` are listed here. -/
inductive QAClassificationLabel where
  | CONSUMABLE_WITH_PN_SPEC_QTY
  | CONSUMABLE_WITH_PN_QTY
  | CONSUMABLE_NO_QTY
  | CONSUMABLE_NO_PN
  | CONSUMABLE_OBSOLETE_PN
  | CONSUMABLE_PN_MISMATCH
  | VENDOR_KIT_NO_PN
  | VENDOR_NAME_ONLY
  | PRE_ASSEMBLED_KIT
  | NO_CONSUMABLE_MENTIONED
  deriving DecidableEq, Repr

/-- Modelled from the spec: `ConfidenceLevel` from `backend/models/schemas.py`
(HIGH, MEDIUM or LOW), as used by `_classify_material`. -/
inductive ConfidenceLevel where
  | HIGH
  | MEDIUM
  | LOW
  deriving DecidableEq, Repr

/-- Modelled from the spec: `ActionPathRAG` from `backend/models/schemas.py`
(GREEN, AMBER or RED), as used by `_classify_material`. -/
inductive ActionPathRAG where
  | GREEN
  | AMBER
  | RED
  deriving DecidableEq, Repr

/-- The dictionary returned by `_classify_material`. -/
structure ClassificationResult where
  label : QAClassificationLabel
  confidence_level : ConfidenceLevel
  action_path : ActionPathRAG
  reasoning : String
  deriving DecidableEq, Repr

/-- The eight boolean/presence flags computed at the top of
`_classify_material`. -/
structure Flags where
  has_consumable : Bool
  has_pn : Bool
  has_qty : Bool
  has_specs : Bool
  has_vendor : Bool
  has_kit : Bool
  pn_mismatch : Bool
  obsolete_pn : Bool
  deriving DecidableEq, Repr

/-- The `if`/`elif` cascade of `_classify_material`, as a function of the
eight flags. -/
def classifyFlags (f : Flags) : ClassificationResult :=
  if f.has_consumable && f.has_pn && f.has_qty && f.has_specs then
    ⟨QAClassificationLabel.CONSUMABLE_WITH_PN_SPEC_QTY, ConfidenceLevel.HIGH,
      ActionPathRAG.GREEN,
      "Consumable with PN, specifications, and quantity - Auto-Register"⟩
  else if f.has_consumable && f.has_pn && f.has_qty then
    ⟨QAClassificationLabel.CONSUMABLE_WITH_PN_QTY, ConfidenceLevel.HIGH,
      ActionPathRAG.GREEN, "Consumable with PN and quantity - Auto-Register"⟩
  else if f.has_consumable && f.has_pn && !f.has_qty then
    ⟨QAClassificationLabel.CONSUMABLE_NO_QTY, ConfidenceLevel.MEDIUM,
      ActionPathRAG.AMBER, "Consumable with PN but no quantity - Auto with Flag"⟩
  else if f.has_consumable && !f.has_pn then
    ⟨QAClassificationLabel.CONSUMABLE_NO_PN, ConfidenceLevel.LOW,
      ActionPathRAG.RED,
      "Consumable mentioned but no part number - Human Intervention Required"⟩
  else if f.obsolete_pn then
    ⟨QAClassificationLabel.CONSUMABLE_OBSOLETE_PN, ConfidenceLevel.LOW,
      ActionPathRAG.RED, "Obsolete part number detected - Human Intervention Required"⟩
  else if f.pn_mismatch then
    ⟨QAClassificationLabel.CONSUMABLE_PN_MISMATCH, ConfidenceLevel.LOW,
      ActionPathRAG.RED, "Part number mismatch detected - Human Intervention Required"⟩
  else if f.has_vendor && f.has_kit && !f.has_pn then
    ⟨QAClassificationLabel.VENDOR_KIT_NO_PN, ConfidenceLevel.LOW,
      ActionPathRAG.RED,
      "Vendor and kit mentioned but no PN - Human Intervention Required"⟩
  else if f.has_vendor && !f.has_consumable then
    ⟨QAClassificationLabel.VENDOR_NAME_ONLY, ConfidenceLevel.MEDIUM,
      ActionPathRAG.AMBER, "Only vendor name mentioned - Auto with Flag"⟩
  else if f.has_kit then
    ⟨QAClassificationLabel.PRE_ASSEMBLED_KIT, ConfidenceLevel.MEDIUM,
      ActionPathRAG.AMBER, "Pre-assembled kit mentioned - Auto with Flag"⟩
  else
    ⟨QAClassificationLabel.NO_CONSUMABLE_MENTIONED, ConfidenceLevel.LOW,
      ActionPathRAG.RED,
      "No clear consumable/jigs/tools mentioned - Human Intervention Required"⟩

/-- Raw attributes read out of `material_data` by `_classify_material`
(`material_data.get(...)` with the defaults used there). -/
structure MaterialData where
  consumable_jigs_tools : Bool
  part_number : Option String
  quantity : Option ℚ
  specifications : List (String × String)
  vendor_name : Option String
  kit_available : Bool
  pn_mismatch : Bool
  obsolete_pn : Bool
  deriving DecidableEq, Repr

/-- Python truthiness of an optional string, as in `bool(material_data.get("part_number"))`:
`None` and the empty string are falsy. -/
def truthyStr : Option String → Bool
  | none => false
  | some s => s != ""

/-- Python truthiness of an optional number, as in `bool(material_data.get("quantity"))`:
`None` and `0` are falsy. -/
def truthyNum : Option ℚ → Bool
  | none => false
  | some q => q != 0

/-- The flag computation at the top of `_classify_material`: presence is
decided by Python truthiness of the raw values. -/
def flagsOf (m : MaterialData) : Flags :=
  ⟨m.consumable_jigs_tools, truthyStr m.part_number, truthyNum m.quantity,
    !m.specifications.isEmpty, truthyStr m.vendor_name, m.kit_available,
    m.pn_mismatch, m.obsolete_pn⟩

/-- `ExtractionAgent._classify_material`. -/
def classify_material (m : MaterialData) : ClassificationResult :=
  classifyFlags (flagsOf m)

/-- The (label, confidence level, action path) projection of a classification
outcome; the claims compare outcomes on these three components. -/
def outcomeOf (r : ClassificationResult) :
    QAClassificationLabel × ConfidenceLevel × ActionPathRAG :=
  (r.label, r.confidence_level, r.action_path)

/-- The spec's decision table (section 4.1, rules 1 to 9), written from the
spec's words: each rule is a condition on the flags together with the outcome
it produces.  Rule 10 is the default outcome below. -/
def specRules :
    List ((Flags → Bool) × QAClassificationLabel × ConfidenceLevel × ActionPathRAG) :=
  [ (fun f => f.has_consumable && f.has_pn && f.has_qty && f.has_specs,
      QAClassificationLabel.CONSUMABLE_WITH_PN_SPEC_QTY, ConfidenceLevel.HIGH,
      ActionPathRAG.GREEN),
    (fun f => f.has_consumable && f.has_pn && f.has_qty,
      QAClassificationLabel.CONSUMABLE_WITH_PN_QTY, ConfidenceLevel.HIGH,
      ActionPathRAG.GREEN),
    (fun f => f.has_consumable && f.has_pn && !f.has_qty,
      QAClassificationLabel.CONSUMABLE_NO_QTY, ConfidenceLevel.MEDIUM,
      ActionPathRAG.AMBER),
    (fun f => f.has_consumable && !f.has_pn,
      QAClassificationLabel.CONSUMABLE_NO_PN, ConfidenceLevel.LOW,
      ActionPathRAG.RED),
    (fun f => f.obsolete_pn,
      QAClassificationLabel.CONSUMABLE_OBSOLETE_PN, ConfidenceLevel.LOW,
      ActionPathRAG.RED),
    (fun f => f.pn_mismatch,
      QAClassificationLabel.CONSUMABLE_PN_MISMATCH, ConfidenceLevel.LOW,
      ActionPathRAG.RED),
    (fun f => f.has_vendor && f.has_kit && !f.has_pn,
      QAClassificationLabel.VENDOR_KIT_NO_PN, ConfidenceLevel.LOW,
      ActionPathRAG.RED),
    (fun f => f.has_vendor && !f.has_consumable,
      QAClassificationLabel.VENDOR_NAME_ONLY, ConfidenceLevel.MEDIUM,
      ActionPathRAG.AMBER),
    (fun f => f.has_kit,
      QAClassificationLabel.PRE_ASSEMBLED_KIT, ConfidenceLevel.MEDIUM,
      ActionPathRAG.AMBER) ]

/-- First-matching-rule evaluation of the spec's decision table, with rule 10
(the default bucket) when no rule matches. -/
def specEval (f : Flags) : QAClassificationLabel × ConfidenceLevel × ActionPathRAG :=
  match specRules.find? (fun r => r.1 f) with
  | some r => r.2
  | none =>
    (QAClassificationLabel.NO_CONSUMABLE_MENTIONED, ConfidenceLevel.LOW,
      ActionPathRAG.RED)

/-- The ten outcome buckets of the decision table. -/
def outcomes10 : List (QAClassificationLabel × ConfidenceLevel × ActionPathRAG) :=
  [ (QAClassificationLabel.CONSUMABLE_WITH_PN_SPEC_QTY, ConfidenceLevel.HIGH,
      ActionPathRAG.GREEN),
    (QAClassificationLabel.CONSUMABLE_WITH_PN_QTY, ConfidenceLevel.HIGH,
      ActionPathRAG.GREEN),
    (QAClassificationLabel.CONSUMABLE_NO_QTY, ConfidenceLevel.MEDIUM,
      ActionPathRAG.AMBER),
    (QAClassificationLabel.CONSUMABLE_NO_PN, ConfidenceLevel.LOW, ActionPathRAG.RED),
    (QAClassificationLabel.CONSUMABLE_OBSOLETE_PN, ConfidenceLevel.LOW,
      ActionPathRAG.RED),
    (QAClassificationLabel.CONSUMABLE_PN_MISMATCH, ConfidenceLevel.LOW,
      ActionPathRAG.RED),
    (QAClassificationLabel.VENDOR_KIT_NO_PN, ConfidenceLevel.LOW, ActionPathRAG.RED),
    (QAClassificationLabel.VENDOR_NAME_ONLY, ConfidenceLevel.MEDIUM,
      ActionPathRAG.AMBER),
    (QAClassificationLabel.PRE_ASSEMBLED_KIT, ConfidenceLevel.MEDIUM,
      ActionPathRAG.AMBER),
    (QAClassificationLabel.NO_CONSUMABLE_MENTIONED, ConfidenceLevel.LOW,
      ActionPathRAG.RED) ]

/-! ## Knowledge Store (`backend/database/knowledge_base.py`) -/

/-- The part of an extracted item's dictionary read by `add_items` and by the
matcher: `item.get('qa_material_name', '')` and `item.get('part_number')`. -/
structure ExtractedItem where
  qa_material_name : String
  part_number : Option String
  deriving DecidableEq, Repr

/-- A row of the `items` table (the columns the claims touch).  `id` is
assigned by `AUTOINCREMENT` on insert, so it is strictly increasing and also
encodes creation order. -/
structure KnowledgeRecord where
  id : ℕ
  material_name : String
  normalized_name : String
  part_number : Option String
  workflow_id : String
  deriving DecidableEq, Repr

/-- A row of the `item_matches` table (only `original_item_id` is read by the
statistics query). -/
structure MatchRow where
  original_item_id : ℕ
  deriving DecidableEq, Repr

/-- The knowledge base state: the `items` and `item_matches` tables and the
next `AUTOINCREMENT` id.  Rows of `items` are kept in insertion order. -/
structure Store where
  items : List KnowledgeRecord
  item_matches : List MatchRow
  nextId : ℕ
  deriving DecidableEq, Repr

/-- One `INSERT` of the `add_items` loop. -/
def insertItem (s : Store) (item : ExtractedItem) (workflow_id : String) :
    ℕ × Store :=
  let r : KnowledgeRecord :=
    ⟨s.nextId, item.qa_material_name, normalizeName item.qa_material_name,
      item.part_number, workflow_id⟩
  (s.nextId, ⟨s.items ++ [r], s.item_matches, s.nextId + 1⟩)

/-- `KnowledgeBase.add_items` (success path): inserts one row per item and
returns the assigned ids in input order, together with the new store.  The
Python early return for an empty item list coincides with the `[]` case. -/
def add_items (s : Store) (items : List ExtractedItem) (workflow_id : String) :
    List ℕ × Store :=
  match items with
  | [] => ([], s)
  | item :: rest =>
    let p := insertItem s item workflow_id
    let q := add_items p.2 rest workflow_id
    (p.1 :: q.1, q.2)

/-- `add_items` together with its exception handler: when the store fails
(`fail = true`) the transaction is never committed and the handler returns the
empty id list, leaving the store unchanged. -/
def add_items_r (fail : Bool) (s : Store) (items : List ExtractedItem)
    (workflow_id : String) : List ℕ × Store :=
  if fail then ([], s) else add_items s items workflow_id

/-- A result row of `find_similar_items`: a stored record plus the
`match_type = 'exact'` and `confidence_score = 1.0` fields attached by the
query loop. -/
structure KBMatch where
  record : KnowledgeRecord
  match_type : String
  confidence_score : ℚ
  deriving DecidableEq, Repr

/-- `KnowledgeBase.find_similar_items`: normalizes the query name; when the
normalized query is non-empty, returns the rows whose `normalized_name` equals
it, newest first (`ORDER BY created_at DESC`), limited to 5 (`LIMIT 5`), each
carrying `match_type = 'exact'` and `confidence_score = 1.0`.  The
`part_number` and `threshold` parameters of the Python function are not used
by its body. -/
def find_similar_items (s : Store) (material_name : String) : List KBMatch :=
  let q := normalizeName material_name
  if q = "" then []
  else
    (((s.items.filter (fun r => r.normalized_name == q)).reverse).take 5).map
      (fun r => ⟨r, "exact", 1⟩)

/-- `find_similar_items` together with its exception handler: a store failure
is caught and yields the empty list. -/
def find_similar_items_r (fail : Bool) (s : Store) (material_name : String) :
    List KBMatch :=
  if fail then [] else find_similar_items s material_name

/-- The dictionary returned by `get_processing_stats`. -/
structure StatsResult where
  total_items : ℕ
  total_workflows : ℕ
  total_matches : ℕ
  unique_matched_items : ℕ
  match_rate : ℚ
  deriving DecidableEq, Repr

/-- `KnowledgeBase.get_processing_stats` (success path): row counts, distinct
counts and the match rate, which is guarded against division by zero. -/
def get_processing_stats (s : Store) : StatsResult :=
  let total_items := s.items.length
  let total_workflows := ((s.items.map (fun r => r.workflow_id)).dedup).length
  let total_matches := s.item_matches.length
  let unique_matched_items :=
    ((s.item_matches.map (fun m => m.original_item_id)).dedup).length
  ⟨total_items, total_workflows, total_matches, unique_matched_items,
    if total_items > 0 then (unique_matched_items : ℚ) / total_items * 100 else 0⟩

/-- `KnowledgeBase.clear_all_data`: deletes all rows of both tables (the
`AUTOINCREMENT` sequence is not reset by `DELETE`). -/
def clear_all_data (s : Store) : Store := ⟨[], [], s.nextId⟩

/-! ## Matcher (`backend/database/item_matcher.py`) -/

/-- One row of the supplier BOM, as read by `_find_supplier_matches`. -/
structure SupplierItem where
  description : String
  part_number : Option String
  deriving DecidableEq, Repr

/-- A supplier-side match candidate produced by `_find_supplier_matches`. -/
structure SupplierMatch where
  supplier_description : String
  supplier_part_number : Option String
  confidence_score : ℚ
  match_type : String
  deriving DecidableEq, Repr

/-- Python `s.lower()`. -/
def lowerStr (s : String) : String := String.mk (s.data.map Char.toLower)

/-- `len(set(xs) & set(ys))`: the size of the intersection of two token
sets. -/
def commonCount (xs ys : List (List Char)) : ℕ :=
  ((xs.dedup).filter (fun t => decide (t ∈ ys))).length

/-- The confidence computed by one iteration of the `_find_supplier_matches`
loop: 0.95 on an exact part-number match, otherwise the capped word-overlap
ratio of the case-folded names, otherwise 0. -/
def supplierConfidence (item : ExtractedItem) (sup : SupplierItem) : ℚ :=
  let material_name := lowerStr item.qa_material_name
  let supplier_desc := lowerStr sup.description
  if truthyStr item.part_number && truthyStr sup.part_number &&
      item.part_number == sup.part_number then 95/100
  else if material_name != "" && supplier_desc != "" then
    let mTokens := pySplit material_name.data
    let sTokens := pySplit supplier_desc.data
    let common := commonCount mTokens sTokens
    if common > 0 then
      min (9/10) ((common : ℚ) / (max mTokens.length sTokens.length) * (8/10))
    else 0
  else 0

/-- Insertion step of the stable descending sort: `x` is placed before the
first element whose key is not greater than `x`'s, so elements with equal keys
keep their original relative order. -/
def insertDesc {α : Type} (f : α → ℚ) (x : α) : List α → List α
  | [] => [x]
  | y :: ys => if f y ≤ f x then x :: y :: ys else y :: insertDesc f x ys

/-- Python `sorted(l, key=f, reverse=True)`: stable sort by key descending.
A stable sort's output is uniquely determined by the key, so insertion sort
realises exactly the behaviour of Python's `sorted`. -/
def pySortDesc {α : Type} (f : α → ℚ) : List α → List α
  | [] => []
  | x :: xs => insertDesc f x (pySortDesc f xs)

/-- The case-folded whitespace tokens of a string: `s.lower().split()`. -/
def tokensOf (s : String) : List (List Char) := pySplit (lowerStr s).data

/-- The candidate list built by the loop of `_find_supplier_matches`, in
original supplier-BOM order: one candidate per supplier row whose confidence
exceeds the 0.3 threshold. -/
def supplierCandidatesInOrder (item : ExtractedItem)
    (supplier_bom : List SupplierItem) : List SupplierMatch :=
  supplier_bom.filterMap (fun sup =>
    let confidence := supplierConfidence item sup
    if confidence > 3/10 then
      some ⟨sup.description, sup.part_number, confidence,
        if confidence > 9/10 then "part_number" else "description"⟩
    else none)

/-- `ItemMatcher._find_supplier_matches`: computes each supplier row's
confidence, keeps candidates with confidence strictly above 0.3 in BOM order,
and stably sorts them by confidence descending. -/
def find_supplier_matches (item : ExtractedItem)
    (supplier_bom : List SupplierItem) : List SupplierMatch :=
  pySortDesc (fun m => m.confidence_score)
    (supplierCandidatesInOrder item supplier_bom)

/-- The dictionary returned by `_select_best_match`; the empty dictionary
(no match) is `none`.  The supplier branch's dictionary carries no `id`. -/
structure BestMatch where
  id : Option ℕ
  supplier_description : String
  supplier_part_number : Option String
  confidence_score : ℚ
  match_type : String
  match_source : String
  deriving DecidableEq, Repr

/-- Python `max(x :: l, key=f)`: the first element attaining the maximal
key. -/
def pyMaxBy {α : Type} (f : α → ℚ) (x : α) : List α → α
  | [] => x
  | y :: ys => pyMaxBy f (if f y > f x then y else x) ys

/-- The knowledge-base fallback branch at the end of `_select_best_match`:
the highest-scoring knowledge-base row, reported with confidence 0.6 and
match type `fuzzy`. -/
def bestKBFallback (kb_matches : List KBMatch) : Option BestMatch :=
  match kb_matches with
  | [] => none
  | k :: rest =>
    let best := pyMaxBy (fun m => m.confidence_score) k rest
    some ⟨some best.record.id, best.record.material_name,
      best.record.part_number, 6/10, "fuzzy", "knowledge_base"⟩

/-- `ItemMatcher._select_best_match`: first knowledge-base row with match type
`exact` (reported confidence 0.9), else the best supplier candidate when its
score exceeds 0.7, else the knowledge-base fallback, else nothing. -/
def select_best_match (kb_matches : List KBMatch)
    (supplier_matches : List SupplierMatch) : Option BestMatch :=
  match kb_matches.find? (fun k => k.match_type == "exact") with
  | some k =>
    some ⟨some k.record.id, k.record.material_name, k.record.part_number,
      9/10, "exact", "knowledge_base"⟩
  | none =>
    match supplier_matches with
    | s :: rest =>
      let best := pyMaxBy (fun m => m.confidence_score) s rest
      if best.confidence_score > 7/10 then
        some ⟨none, best.supplier_description, best.supplier_part_number,
          best.confidence_score, best.match_type, "supplier_bom"⟩
      else bestKBFallback kb_matches
    | [] => bestKBFallback kb_matches

/-- `ItemMatcher._determine_match_source`. -/
def determine_match_source (kb_matches : List KBMatch)
    (supplier_matches : List SupplierMatch) : String :=
  if !kb_matches.isEmpty && !supplier_matches.isEmpty then "hybrid"
  else if !kb_matches.isEmpty then "knowledge_base"
  else if !supplier_matches.isEmpty then "supplier_bom"
  else "no_match"

/-- The per-material fields of the enhanced match dictionary assembled by
`match_items_with_knowledge_base` (the `**item` passthrough and the reasoning
string are not read by any claim). -/
structure MatchResult where
  knowledge_base_matches : ℕ
  supplier_matches : ℕ
  has_previous_match : Bool
  match_source : String
  confidence_score : ℚ
  supplier_description : String
  supplier_part_number : Option String
  deriving DecidableEq, Repr

/-- The knowledge-base candidate list used for one material of the batch:
`match_items_with_knowledge_base` first calls `add_items` on the whole batch
and then queries `find_similar_items` against the resulting store. -/
def kbCandidates (s : Store) (batch : List ExtractedItem) (workflow_id : String)
    (item : ExtractedItem) : List KBMatch :=
  find_similar_items (add_items s batch workflow_id).2 item.qa_material_name

/-- `ItemMatcher.match_items_with_knowledge_base` (success path): inserts the
whole batch into the knowledge base, then builds one enhanced result per
extracted item. -/
def match_items_with_knowledge_base (s : Store)
    (extracted_items : List ExtractedItem) (supplier_bom : List SupplierItem)
    (workflow_id : String) : List MatchResult :=
  extracted_items.map (fun item =>
    let kb_matches := kbCandidates s extracted_items workflow_id item
    let supplier := find_supplier_matches item supplier_bom
    let best := select_best_match kb_matches supplier
    ⟨kb_matches.length, supplier.length, decide (0 < kb_matches.length),
      determine_match_source kb_matches supplier,
      (match best with | some b => b.confidence_score | none => 0),
      (match best with | some b => b.supplier_description | none => ""),
      (match best with | some b => b.supplier_part_number | none => none)⟩)

/-! ## Deduplication (`ExtractionAgent._deduplicate_materials`) -/

/-- An extracted material as consumed by `_deduplicate_materials`; only the
`name` attribute is read by the deduplication. -/
structure Material where
  name : String
  deriving DecidableEq, Repr

/-- Python `s.lower().strip()`: the deduplication key used by
`_deduplicate_materials`. -/
def dedupKey (s : String) : String := String.mk (pyStrip (s.data.map Char.toLower))

/-- The loop of `_deduplicate_materials`, with `seen` the set of keys already
encountered. -/
def deduplicate_materials_aux (seen : List String) :
    List Material → List Material
  | [] => []
  | m :: ms =>
    let key := dedupKey m.name
    if key ∈ seen then deduplicate_materials_aux seen ms
    else m :: deduplicate_materials_aux (key :: seen) ms

/-- `ExtractionAgent._deduplicate_materials`: keeps the first material for
each `name.lower().strip()` key. -/
def deduplicate_materials (materials : List Material) : List Material :=
  deduplicate_materials_aux [] materials

/-! ## Helper lemmas -/

/-- The records appended to the `items` table by one `add_items` call,
starting from a given next id. -/
def newRecords (n : ℕ) (items : List ExtractedItem) (w : String) :
    List KnowledgeRecord :=
  match items with
  | [] => []
  | item :: rest =>
    ⟨n, item.qa_material_name, normalizeName item.qa_material_name,
      item.part_number, w⟩ :: newRecords (n + 1) rest w

/-- Characterisation of the store after `add_items`: the new rows are appended
in input order and the next id advances by the batch length. -/
theorem add_items_store (items : List ExtractedItem) : ∀ (s : Store) (w : String),
    (add_items s items w).2 =
      ⟨s.items ++ newRecords s.nextId items w, s.item_matches,
        s.nextId + items.length⟩ := by
  induction items with
  | nil => intro s w; simp [add_items, newRecords]
  | cons item rest ih =>
    intro s w
    simp only [add_items, insertItem]
    rw [ih]
    simp only [newRecords, Store.mk.injEq, List.append_assoc, List.singleton_append,
      List.length_cons, true_and]
    omega

/-- The ids returned by `add_items` are consecutive, starting at the store's
next id, one per input item in input order. -/
theorem add_items_ids (items : List ExtractedItem) : ∀ (s : Store) (w : String),
    (add_items s items w).1 = List.range' s.nextId items.length := by
  induction items with
  | nil => intro s w; rfl
  | cons item rest ih =>
    intro s w
    simp only [add_items, insertItem]
    rw [ih]
    simp [List.range'_succ]

/-- `newRecords` distributes over batch concatenation. -/
theorem newRecords_append (a : List ExtractedItem) :
    ∀ (b : List ExtractedItem) (n : ℕ) (w : String),
      newRecords n (a ++ b) w = newRecords n a w ++ newRecords (n + a.length) b w := by
  induction a with
  | nil => intro b n w; simp [newRecords]
  | cons x xs ih =>
    intro b n w
    have h1 : newRecords n ((x :: xs) ++ b) w =
        ⟨n, x.qa_material_name, normalizeName x.qa_material_name, x.part_number, w⟩ ::
          newRecords (n + 1) (xs ++ b) w := rfl
    have h2 : newRecords n (x :: xs) w =
        ⟨n, x.qa_material_name, normalizeName x.qa_material_name, x.part_number, w⟩ ::
          newRecords (n + 1) xs w := rfl
    have he : n + 1 + xs.length = n + (xs.length + 1) := by omega
    rw [h1, ih, h2, List.cons_append, List.length_cons, he]

/-- The ids of the appended records are the consecutive range starting at the
given next id. -/
theorem newRecords_map_id (items : List ExtractedItem) : ∀ (n : ℕ) (w : String),
    (newRecords n items w).map (fun r => r.id) = List.range' n items.length := by
  induction items with
  | nil => intro n w; rfl
  | cons it rest ih =>
    intro n w
    simp only [newRecords, List.map_cons, List.length_cons, List.range'_succ, ih]

/-- Per normalized name, `newRecords` contains exactly one row per batch
member with that normalized name. -/
theorem filter_newRecords_length (q : String) (b : List ExtractedItem) :
    ∀ (m : ℕ) (w : String),
      ((newRecords m b w).filter (fun r => r.normalized_name == q)).length =
        (b.filter (fun it => normalizeName it.qa_material_name == q)).length := by
  induction b with
  | nil => intro m w; rfl
  | cons x xs ih =>
    intro m w
    simp only [newRecords, List.filter_cons]
    by_cases hb : (normalizeName x.qa_material_name == q) = true
    · rw [if_pos hb, if_pos hb]
      simp [ih]
    · rw [if_neg hb, if_neg hb]
      exact ih (m + 1) w

/-- `range'` is strictly increasing. -/
theorem pairwise_lt_range' (m : ℕ) : ∀ n : ℕ, (List.range' n m).Pairwise (· < ·) := by
  induction m with
  | zero => intro n; simp
  | succ k ih =>
    intro n
    rw [List.range'_succ]
    refine List.pairwise_cons.mpr ⟨?_, ih (n + 1)⟩
    intro b hb
    obtain ⟨j, hj, rfl⟩ := List.mem_range'.mp hb
    omega

/-- Well-formed store: row ids strictly increase along insertion order and
stay below the next id. -/
def Store.WF (s : Store) : Prop :=
  (s.items.map (fun r => r.id)).Pairwise (· < ·) ∧ ∀ r ∈ s.items, r.id < s.nextId

/-- `add_items` preserves store well-formedness. -/
theorem Store.WF_add (s : Store) (hs : Store.WF s) (items : List ExtractedItem)
    (w : String) : Store.WF (add_items s items w).2 := by
  rw [add_items_store]
  constructor
  · rw [List.map_append, newRecords_map_id, List.pairwise_append]
    refine ⟨hs.1, pairwise_lt_range' _ _, ?_⟩
    intro a ha b hb
    obtain ⟨ra, hra, rfl⟩ := List.mem_map.mp ha
    obtain ⟨j, hj, rfl⟩ := List.mem_range'.mp hb
    have := hs.2 ra hra
    omega
  · intro r hr
    rcases List.mem_append.mp hr with h | h
    · have := hs.2 r h
      simp only
      omega
    · have hid : r.id ∈ List.range' s.nextId items.length := by
        rw [← newRecords_map_id items s.nextId w]
        exact List.mem_map_of_mem _ h
      obtain ⟨j, hj, hje⟩ := List.mem_range'.mp hid
      simp only [hje]
      omega

/-- Soundness of `find_similar_items`: every result row is a stored record
whose normalized name equals the normalized query, tagged exact with
confidence 1. -/
theorem find_similar_items_sound (s : Store) (name : String) (e : KBMatch)
    (he : e ∈ find_similar_items s name) :
    e.record ∈ s.items ∧ e.record.normalized_name = normalizeName name ∧
    e.match_type = "exact" ∧ e.confidence_score = 1 := by
  simp only [find_similar_items] at he
  split at he
  · simp at he
  · obtain ⟨r, hr, rfl⟩ := List.mem_map.mp he
    have h1 : r ∈ (s.items.filter
        (fun r => r.normalized_name == normalizeName name)).reverse :=
      List.mem_of_mem_take hr
    rw [List.mem_reverse] at h1
    have h2 := List.mem_filter.mp h1
    exact ⟨h2.1, by simpa using h2.2, rfl, rfl⟩

/-- `find_similar_items` returns at most 5 rows. -/
theorem find_similar_items_length (s : Store) (name : String) :
    (find_similar_items s name).length ≤ 5 := by
  simp only [find_similar_items]
  split
  · simp
  · rw [List.length_map]
    exact List.length_take_le 5 _

/-- Over a store with strictly increasing row ids, `find_similar_items`
returns rows newest first (ids strictly decreasing). -/
theorem find_similar_items_ids_sorted (s : Store)
    (hs : (s.items.map (fun r => r.id)).Pairwise (· < ·)) (name : String) :
    ((find_similar_items s name).map (fun e => e.record.id)).Pairwise (· > ·) := by
  simp only [find_similar_items]
  split
  · simp
  · rw [List.map_map, List.pairwise_map]
    apply List.Pairwise.sublist (List.take_sublist 5 _)
    rw [List.pairwise_reverse]
    have hp := (List.pairwise_map.mp hs).filter
      (fun r => r.normalized_name == normalizeName name)
    exact hp

/-- A witness-position membership fact: an element preceded by at most four
matching rows is kept by `take 5`. -/
theorem mem_take_five {α : Type} (A : List α) (x : α) (B : List α)
    (h : A.length ≤ 4) : x ∈ (A ++ x :: B).take 5 := by
  rw [List.take_append_eq_append_take, List.take_of_length_le (le_trans h (by norm_num))]
  refine List.mem_append.mpr (Or.inr ?_)
  rcases hn : 5 - A.length with _ | k
  · omega
  · rw [List.take_succ_cons]
    exact List.mem_cons_self _ _

/-- After the whole batch is inserted, a batch member whose normalized name is
non-empty and is shared by at most four later batch members is found by
`find_similar_items` — in particular a material finds its own freshly
inserted record. -/
theorem find_after_add_self (s : Store) (batch : List ExtractedItem) (w : String)
    (i : ℕ) (hi : i < batch.length) (name : String)
    (hq : normalizeName name = normalizeName (batch.get ⟨i, hi⟩).qa_material_name)
    (hne : normalizeName name ≠ "")
    (hcount : ((batch.drop (i + 1)).filter (fun it =>
        normalizeName it.qa_material_name == normalizeName name)).length ≤ 4) :
    (⟨⟨s.nextId + i, (batch.get ⟨i, hi⟩).qa_material_name,
        normalizeName (batch.get ⟨i, hi⟩).qa_material_name,
        (batch.get ⟨i, hi⟩).part_number, w⟩, "exact", 1⟩ : KBMatch) ∈
      find_similar_items (add_items s batch w).2 name := by
  rw [add_items_store]
  simp only [find_similar_items]
  rw [if_neg hne]
  apply List.mem_map.mpr
  refine ⟨⟨s.nextId + i, (batch.get ⟨i, hi⟩).qa_material_name,
    normalizeName (batch.get ⟨i, hi⟩).qa_material_name,
    (batch.get ⟨i, hi⟩).part_number, w⟩, ?_, rfl⟩
  have hsplit : batch.take i ++ (batch.get ⟨i, hi⟩ :: batch.drop (i + 1)) = batch := by
    conv_rhs => rw [← List.take_append_drop i batch]
    rw [List.drop_eq_get_cons hi]
  have hlen : (batch.take i).length = i := by
    rw [List.length_take]
    omega
  have hrecs : newRecords s.nextId batch w =
      newRecords s.nextId (batch.take i) w ++
        (⟨s.nextId + i, (batch.get ⟨i, hi⟩).qa_material_name,
          normalizeName (batch.get ⟨i, hi⟩).qa_material_name,
          (batch.get ⟨i, hi⟩).part_number, w⟩ ::
          newRecords (s.nextId + i + 1) (batch.drop (i + 1)) w) := by
    conv_lhs => rw [← hsplit]
    rw [newRecords_append, hlen]
    rfl
  rw [hrecs, ← List.append_assoc, List.filter_append, List.filter_cons,
    if_pos (by simpa using hq.symm), List.reverse_append, List.reverse_cons,
    List.append_assoc, List.singleton_append]
  apply mem_take_five
  rw [List.length_reverse]
  calc ((newRecords (s.nextId + i + 1) (batch.drop (i + 1)) w).filter
        (fun r => r.normalized_name == normalizeName name)).length =
      ((batch.drop (i + 1)).filter (fun it =>
        normalizeName it.qa_material_name == normalizeName name)).length :=
      filter_newRecords_length _ _ _ _
    _ ≤ 4 := hcount

/-- `add_items` returns exactly one id per input item. -/
theorem add_items_fst_length (items : List ExtractedItem) :
    ∀ (s : Store) (w : String), (add_items s items w).1.length = items.length := by
  induction items with
  | nil => intro s w; rfl
  | cons item rest ih => intro s w; simp [add_items, ih]

/-- Deduplication returns a subsequence whose keys are pairwise distinct and
avoid the keys already seen. -/
theorem deduplicate_materials_aux_spec (l : List Material) : ∀ seen : List String,
    (deduplicate_materials_aux seen l).Sublist l ∧
    (∀ m ∈ deduplicate_materials_aux seen l, dedupKey m.name ∉ seen) ∧
    (deduplicate_materials_aux seen l).Pairwise
      (fun a b => dedupKey a.name ≠ dedupKey b.name) := by
  induction l with
  | nil => intro seen; simp [deduplicate_materials_aux]
  | cons m ms ih =>
    intro seen
    by_cases h : dedupKey m.name ∈ seen
    · simp only [deduplicate_materials_aux, if_pos h]
      exact ⟨(ih seen).1.cons m, (ih seen).2.1, (ih seen).2.2⟩
    · simp only [deduplicate_materials_aux, if_neg h]
      refine ⟨(ih _).1.cons₂ m, ?_, ?_⟩
      · intro m' hm'
        rcases List.mem_cons.mp hm' with rfl | hm'
        · exact h
        · intro hs
          exact (ih (dedupKey m.name :: seen)).2.1 m' hm' (List.mem_cons_of_mem _ hs)
      · refine List.pairwise_cons.mpr ⟨?_, (ih _).2.2⟩
        intro m' hm' he
        exact (ih (dedupKey m.name :: seen)).2.1 m' hm' (he ▸ List.mem_cons_self _ _)

/-- Inserting into the stable descending sort permutes the consed list. -/
theorem insertDesc_perm {α : Type} (f : α → ℚ) (x : α) :
    ∀ l : List α, List.Perm (insertDesc f x l) (x :: l) := by
  intro l
  induction l with
  | nil => simp [insertDesc]
  | cons y ys ih =>
    simp only [insertDesc]
    split
    · exact List.Perm.refl _
    · exact (ih.cons y).trans (List.Perm.swap x y ys)

/-- The stable descending sort permutes its input. -/
theorem pySortDesc_perm {α : Type} (f : α → ℚ) :
    ∀ l : List α, List.Perm (pySortDesc f l) l := by
  intro l
  induction l with
  | nil => simp [pySortDesc]
  | cons x xs ih =>
    exact (insertDesc_perm f x (pySortDesc f xs)).trans (ih.cons x)

/-- Insertion preserves the descending-key invariant. -/
theorem insertDesc_pairwise {α : Type} (f : α → ℚ) (x : α) :
    ∀ l : List α, l.Pairwise (fun a b => f b ≤ f a) →
      (insertDesc f x l).Pairwise (fun a b => f b ≤ f a) := by
  intro l
  induction l with
  | nil => intro _; simp [insertDesc]
  | cons y ys ih =>
    intro hp
    rw [List.pairwise_cons] at hp
    simp only [insertDesc]
    split
    · rename_i hyx
      refine List.pairwise_cons.mpr ⟨?_, List.pairwise_cons.mpr hp⟩
      intro z hz
      rcases List.mem_cons.mp hz with rfl | hz
      · exact hyx
      · exact le_trans (hp.1 z hz) hyx
    · rename_i hyx
      refine List.pairwise_cons.mpr ⟨?_, ih hp.2⟩
      intro z hz
      have hz2 : z ∈ x :: ys := (insertDesc_perm f x ys).mem_iff.mp hz
      rcases List.mem_cons.mp hz2 with rfl | hmem
      · exact le_of_lt (lt_of_not_le hyx)
      · exact hp.1 z hmem

/-- The stable descending sort is sorted by key, descending. -/
theorem pySortDesc_pairwise {α : Type} (f : α → ℚ) :
    ∀ l : List α, (pySortDesc f l).Pairwise (fun a b => f b ≤ f a) := by
  intro l
  induction l with
  | nil => simp [pySortDesc]
  | cons x xs ih => exact insertDesc_pairwise f x _ ih

/-- Filtering one key class through an insertion: the inserted element lands
in front of its own class and the other classes are untouched. -/
theorem insertDesc_filter {α : Type} (f : α → ℚ) (x : α) (q : ℚ) :
    ∀ l : List α,
      (f x = q → (insertDesc f x l).filter (fun a => decide (f a = q)) =
        x :: l.filter (fun a => decide (f a = q))) ∧
      (f x ≠ q → (insertDesc f x l).filter (fun a => decide (f a = q)) =
        l.filter (fun a => decide (f a = q))) := by
  intro l
  induction l with
  | nil =>
    constructor
    · intro h; simp [insertDesc, h]
    · intro h; simp [insertDesc, h]
  | cons y ys ih =>
    constructor
    · intro hx
      simp only [insertDesc]
      split
      · simp [hx]
      · rename_i hyx
        have hy : f y ≠ q := by
          intro he
          exact hyx (le_of_eq (he.trans hx.symm))
        simp only [List.filter_cons, decide_eq_true_eq, if_neg hy, ih.1 hx]
    · intro hx
      simp only [insertDesc]
      split
      · simp [hx]
      · simp only [List.filter_cons, decide_eq_true_eq, ih.2 hx]

/-- Stability of the descending sort: each key class comes out in its
original input order. -/
theorem pySortDesc_filter {α : Type} (f : α → ℚ) (q : ℚ) :
    ∀ l : List α,
      (pySortDesc f l).filter (fun a => decide (f a = q)) =
        l.filter (fun a => decide (f a = q)) := by
  intro l
  induction l with
  | nil => simp [pySortDesc]
  | cons x xs ih =>
    simp only [pySortDesc]
    by_cases hx : f x = q
    · rw [(insertDesc_filter f x q (pySortDesc f xs)).1 hx, ih,
        List.filter_cons, if_pos (by simpa using hx)]
    · rw [(insertDesc_filter f x q (pySortDesc f xs)).2 hx, ih,
        List.filter_cons, if_neg (by simpa using hx)]

/-- `pyMaxBy` returns an element of the list it scans. -/
theorem pyMaxBy_mem {α : Type} (f : α → ℚ) :
    ∀ (l : List α) (x : α), pyMaxBy f x l ∈ x :: l := by
  intro l
  induction l with
  | nil => intro x; simp [pyMaxBy]
  | cons y ys ih =>
    intro x
    have h := List.mem_cons.mp (ih (if f y > f x then y else x))
    simp only [pyMaxBy]
    rcases h with h | h
    · rw [h]
      split
      · exact List.mem_cons_of_mem _ (List.mem_cons_self _ _)
      · exact List.mem_cons_self _ _
    · exact List.mem_cons_of_mem _ (List.mem_cons_of_mem _ h)

/-- `pyMaxBy` returns an element whose key bounds every scanned element. -/
theorem pyMaxBy_le {α : Type} (f : α → ℚ) :
    ∀ (l : List α) (x m : α), m ∈ x :: l → f m ≤ f (pyMaxBy f x l) := by
  intro l
  induction l with
  | nil =>
    intro x m hm
    rw [List.mem_singleton] at hm
    rw [hm]
    simp [pyMaxBy]
  | cons y ys ih =>
    intro x m hm
    simp only [pyMaxBy]
    have hzx : f x ≤ f (if f y > f x then y else x) := by
      split
      · linarith
      · exact le_refl _
    have hzy : f y ≤ f (if f y > f x then y else x) := by
      split
      · exact le_refl _
      · linarith
    rcases List.mem_cons.mp hm with rfl | hm
    · exact le_trans hzx (ih _ _ (List.mem_cons_self _ _))
    · rcases List.mem_cons.mp hm with rfl | hm
      · exact le_trans hzy (ih _ _ (List.mem_cons_self _ _))
      · exact ih _ m (List.mem_cons_of_mem _ hm)

/-! ## Normalizer lemmas (towards idempotence) -/

/-- `Char.toLower` unfolded. -/
theorem char_toLower_eq (c : Char) :
    c.toLower = if c.toNat ≥ 65 ∧ c.toNat ≤ 90 then Char.ofNat (c.toNat + 32) else c :=
  rfl

/-- Code point of a lower-cased basic latin letter. -/
theorem ofNat_plus32_toNat (n : ℕ) (h1 : 65 ≤ n) (h2 : n ≤ 90) :
    (Char.ofNat (n + 32)).toNat = n + 32 := by
  interval_cases n <;> decide

/-- `Char.toLower` is idempotent. -/
theorem toLower_toLower (c : Char) : c.toLower.toLower = c.toLower := by
  by_cases h : c.toNat ≥ 65 ∧ c.toNat ≤ 90
  · rw [char_toLower_eq c, if_pos h]
    have hn : (Char.ofNat (c.toNat + 32)).toNat = c.toNat + 32 :=
      ofNat_plus32_toNat c.toNat h.1 h.2
    rw [char_toLower_eq (Char.ofNat (c.toNat + 32)), if_neg (by rw [hn]; omega)]
  · have hc : c.toLower = c := by rw [char_toLower_eq c, if_neg h]
    rw [hc, hc]

/-- Mapping a function that fixes every element is the identity. -/
theorem map_id_of_fixed {f : Char → Char} : ∀ l : List Char,
    (∀ c ∈ l, f c = c) → l.map f = l := by
  intro l
  induction l with
  | nil => intro _; rfl
  | cons c cs ih =>
    intro h
    rw [List.map_cons, h c (List.mem_cons_self _ _),
      ih (fun d hd => h d (List.mem_cons_of_mem _ hd))]

/-- `dropWhile` is the identity when the head (if any) fails the predicate. -/
theorem dropWhile_eq_self_of_head {p : Char → Bool} : ∀ l : List Char,
    (∀ c, l.head? = some c → p c = false) → l.dropWhile p = l := by
  intro l
  cases l with
  | nil => intro _; rfl
  | cons a t =>
    intro h
    rw [List.dropWhile_cons, if_neg (by simp [h a rfl])]

/-- Characters of a stripped list come from the original list. -/
theorem mem_pyStrip (l : List Char) (c : Char) (h : c ∈ pyStrip l) : c ∈ l := by
  unfold pyStrip at h
  rw [List.mem_reverse] at h
  have h2 := (List.dropWhile_sublist _).mem h
  rw [List.mem_reverse] at h2
  exact (List.dropWhile_sublist _).mem h2

/-- Characters of a joined word list are spaces or word characters. -/
theorem mem_joinSpace : ∀ (ws : List (List Char)) (c : Char), c ∈ joinSpace ws →
    c = ' ' ∨ ∃ w ∈ ws, c ∈ w := by
  intro ws
  induction ws with
  | nil => intro c hc; cases hc
  | cons w ws ih =>
    intro c hc
    cases ws with
    | nil =>
      right
      exact ⟨w, List.mem_cons_self _ _, hc⟩
    | cons w2 t =>
      rw [show joinSpace (w :: w2 :: t) = w ++ ' ' :: joinSpace (w2 :: t) from rfl] at hc
      rcases List.mem_append.mp hc with h | h
      · exact Or.inr ⟨w, List.mem_cons_self _ _, h⟩
      · rcases List.mem_cons.mp h with rfl | h
        · exact Or.inl rfl
        · rcases ih c h with h | ⟨v, hv, hcv⟩
          · exact Or.inl h
          · exact Or.inr ⟨v, List.mem_cons_of_mem _ hv, hcv⟩

/-- Appending a last word to a non-empty word list joins with one space. -/
theorem joinSpace_append_singleton (x : List Char) : ∀ A : List (List Char),
    A ≠ [] → joinSpace (A ++ [x]) = joinSpace A ++ ' ' :: x := by
  intro A
  induction A with
  | nil => intro h; exact absurd rfl h
  | cons a A ih =>
    intro _
    cases A with
    | nil => rfl
    | cons b B =>
      have hne : b :: B ≠ [] := by simp
      rw [show (a :: b :: B) ++ [x] = a :: ((b :: B) ++ [x]) from rfl]
      rw [show joinSpace (a :: ((b :: B) ++ [x])) =
        a ++ ' ' :: joinSpace ((b :: B) ++ [x]) by cases B <;> rfl]
      rw [ih hne,
        show joinSpace (a :: b :: B) = a ++ ' ' :: joinSpace (b :: B) from rfl,
        List.append_assoc]
      rfl

/-- Reversing a join is joining the reversed words in reverse order. -/
theorem joinSpace_reverse : ∀ ws : List (List Char),
    (joinSpace ws).reverse = joinSpace ((ws.map List.reverse).reverse) := by
  intro ws
  induction ws with
  | nil => rfl
  | cons w t ih =>
    cases t with
    | nil => rfl
    | cons w2 t2 =>
      have hA : ((w2 :: t2).map List.reverse).reverse ≠ [] := by simp
      rw [show joinSpace (w :: w2 :: t2) = w ++ ' ' :: joinSpace (w2 :: t2) from rfl,
        List.reverse_append, List.reverse_cons, ih,
        show ((w :: w2 :: t2).map List.reverse) =
          w.reverse :: (w2 :: t2).map List.reverse from rfl,
        List.reverse_cons, joinSpace_append_singleton _ _ hA, List.append_assoc,
        List.singleton_append]

/-- The words produced by `pySplitAux` are non-empty and whitespace-free,
given the same for the pending accumulator. -/
theorem pySplitAux_words : ∀ (l acc : List Char),
    (∀ c ∈ acc, c.isWhitespace = false) →
    ∀ w ∈ pySplitAux l acc, w ≠ [] ∧ ∀ c ∈ w, c.isWhitespace = false := by
  intro l
  induction l with
  | nil =>
    intro acc hacc w hw
    simp only [pySplitAux] at hw
    split at hw
    · cases hw
    · rename_i hne
      rw [List.mem_singleton] at hw
      subst hw
      refine ⟨?_, ?_⟩
      · intro h
        rw [List.reverse_eq_nil_iff] at h
        rw [h] at hne
        exact hne rfl
      · intro c hc
        exact hacc c (List.mem_reverse.mp hc)
  | cons d ds ih =>
    intro acc hacc w hw
    simp only [pySplitAux] at hw
    split at hw
    · split at hw
      · exact ih [] (by intro c hc; cases hc) w hw
      · rename_i hne
        rcases List.mem_cons.mp hw with rfl | hw2
        · refine ⟨?_, ?_⟩
          · intro h
            rw [List.reverse_eq_nil_iff] at h
            rw [h] at hne
            exact hne rfl
          · intro c hc
            exact hacc c (List.mem_reverse.mp hc)
        · exact ih [] (by intro c hc; cases hc) w hw2
    · rename_i hd
      refine ih (d :: acc) ?_ w hw
      intro c hc
      rcases List.mem_cons.mp hc with rfl | hc2
      · simpa using hd
      · exact hacc c hc2

/-- Characters of the words of `pySplitAux` come from the input or the
accumulator. -/
theorem pySplitAux_chars : ∀ (l acc : List Char) (w : List Char) (c : Char),
    w ∈ pySplitAux l acc → c ∈ w → c ∈ l ∨ c ∈ acc := by
  intro l
  induction l with
  | nil =>
    intro acc w c hw hc
    simp only [pySplitAux] at hw
    split at hw
    · cases hw
    · rw [List.mem_singleton] at hw
      subst hw
      exact Or.inr (List.mem_reverse.mp hc)
  | cons d ds ih =>
    intro acc w c hw hc
    simp only [pySplitAux] at hw
    split at hw
    · split at hw
      · rcases ih [] w c hw hc with h | h
        · exact Or.inl (List.mem_cons_of_mem _ h)
        · cases h
      · rcases List.mem_cons.mp hw with rfl | hw2
        · exact Or.inr (List.mem_reverse.mp hc)
        · rcases ih [] w c hw2 hc with h | h
          · exact Or.inl (List.mem_cons_of_mem _ h)
          · cases h
    · rcases ih (d :: acc) w c hw hc with h | h
      · exact Or.inl (List.mem_cons_of_mem _ h)
      · rcases List.mem_cons.mp h with rfl | h2
        · exact Or.inl (List.mem_cons_self _ _)
        · exact Or.inr h2

/-- Scanning a whitespace-free word pushes it, reversed, onto the
accumulator. -/
theorem pySplitAux_word : ∀ (w l acc : List Char),
    (∀ c ∈ w, c.isWhitespace = false) →
    pySplitAux (w ++ l) acc = pySplitAux l (w.reverse ++ acc) := by
  intro w
  induction w with
  | nil => intro l acc _; rfl
  | cons c cs ih =>
    intro l acc h
    rw [List.cons_append]
    simp only [pySplitAux]
    rw [if_neg (by simp [h c (List.mem_cons_self _ _)])]
    rw [ih l (c :: acc) (fun d hd => h d (List.mem_cons_of_mem _ hd))]
    rw [List.reverse_cons, List.append_assoc, List.singleton_append]

/-- Splitting a join of non-empty whitespace-free words recovers exactly the
words. -/
theorem pySplit_joinSpace : ∀ ws : List (List Char),
    (∀ w ∈ ws, w ≠ [] ∧ ∀ c ∈ w, c.isWhitespace = false) →
    pySplit (joinSpace ws) = ws := by
  intro ws
  induction ws with
  | nil => intro _; rfl
  | cons w t ih =>
    intro h
    have hw := h w (List.mem_cons_self _ _)
    have hne : ¬(w.reverse.isEmpty = true) := by
      rw [List.isEmpty_iff, List.reverse_eq_nil_iff]
      exact hw.1
    cases t with
    | nil =>
      have hword := pySplitAux_word w [] [] hw.2
      rw [List.append_nil, List.append_nil] at hword
      show pySplitAux (joinSpace [w]) [] = [w]
      rw [show joinSpace [w] = w from rfl, hword]
      simp only [pySplitAux]
      rw [if_neg hne, List.reverse_reverse]
    | cons w2 t2 =>
      show pySplitAux (joinSpace (w :: w2 :: t2)) [] = w :: w2 :: t2
      rw [show joinSpace (w :: w2 :: t2) = w ++ ' ' :: joinSpace (w2 :: t2) from rfl,
        pySplitAux_word w _ [] hw.2, List.append_nil]
      simp only [pySplitAux]
      rw [if_pos (by decide), if_neg hne, List.reverse_reverse,
        show pySplitAux (joinSpace (w2 :: t2)) [] = pySplit (joinSpace (w2 :: t2))
          from rfl,
        ih (fun v hv => h v (List.mem_cons_of_mem _ hv))]

/-- A join of non-empty whitespace-free words has no leading whitespace. -/
theorem joinSpace_head (ws : List (List Char))
    (h : ∀ w ∈ ws, w ≠ [] ∧ ∀ c ∈ w, c.isWhitespace = false) :
    ∀ c, (joinSpace ws).head? = some c → c.isWhitespace = false := by
  intro c hc
  cases ws with
  | nil => cases hc
  | cons w t =>
    have hw := h w (List.mem_cons_self _ _)
    obtain ⟨d, w', rfl⟩ := List.exists_cons_of_ne_nil hw.1
    have hd : (joinSpace ((d :: w') :: t)).head? = some d := by
      cases t with
      | nil => rfl
      | cons w2 t2 => rfl
    rw [hd] at hc
    cases hc
    exact hw.2 _ (List.mem_cons_self _ _)

/-- `pyStrip` is the identity on a join of non-empty whitespace-free
words. -/
theorem pyStrip_joinSpace (ws : List (List Char))
    (h : ∀ w ∈ ws, w ≠ [] ∧ ∀ c ∈ w, c.isWhitespace = false) :
    pyStrip (joinSpace ws) = joinSpace ws := by
  have h1 : (joinSpace ws).dropWhile Char.isWhitespace = joinSpace ws :=
    dropWhile_eq_self_of_head _ (joinSpace_head ws h)
  have hrev : ∀ w ∈ (ws.map List.reverse).reverse,
      w ≠ [] ∧ ∀ c ∈ w, c.isWhitespace = false := by
    intro w hw
    rw [List.mem_reverse, List.mem_map] at hw
    obtain ⟨v, hv, rfl⟩ := hw
    exact ⟨by simp [(h v hv).1], fun c hc => (h v hv).2 c (List.mem_reverse.mp hc)⟩
  have h2 : (joinSpace ws).reverse.dropWhile Char.isWhitespace =
      (joinSpace ws).reverse := by
    rw [joinSpace_reverse]
    exact dropWhile_eq_self_of_head _ (joinSpace_head _ hrev)
  unfold pyStrip
  rw [h1, h2, List.reverse_reverse]

/-- The Normalizer's output is a join of non-empty words whose characters are
non-whitespace, kept by the filter, and fixed by lower-casing. -/
theorem normalizeL_words (l : List Char) :
    ∃ ws : List (List Char), normalizeL l = joinSpace ws ∧
      ∀ w ∈ ws, w ≠ [] ∧ ∀ c ∈ w,
        c.isWhitespace = false ∧ keepChar c = true ∧ c.toLower = c := by
  refine ⟨pySplit ((pyStrip (l.map Char.toLower)).filter keepChar), rfl, ?_⟩
  intro w hw
  have hwords := pySplitAux_words _ [] (by intro c hc; cases hc) w hw
  refine ⟨hwords.1, ?_⟩
  intro c hc
  have hmem : c ∈ (pyStrip (l.map Char.toLower)).filter keepChar := by
    rcases pySplitAux_chars _ [] w c hw hc with h | h
    · exact h
    · cases h
  have hk := List.mem_filter.mp hmem
  have hlow : c ∈ l.map Char.toLower := mem_pyStrip _ c hk.1
  obtain ⟨a, -, rfl⟩ := List.mem_map.mp hlow
  exact ⟨hwords.2 _ hc, hk.2, toLower_toLower a⟩

/-- Idempotence of the Normalizer's core. -/
theorem normalizeL_idem (l : List Char) : normalizeL (normalizeL l) = normalizeL l := by
  obtain ⟨ws, hy, hws⟩ := normalizeL_words l
  have hwords : ∀ w ∈ ws, w ≠ [] ∧ ∀ c ∈ w, c.isWhitespace = false :=
    fun w hw => ⟨(hws w hw).1, fun c hc => ((hws w hw).2 c hc).1⟩
  rw [hy]
  show joinSpace (pySplit ((pyStrip ((joinSpace ws).map Char.toLower)).filter
    keepChar)) = joinSpace ws
  have h1 : (joinSpace ws).map Char.toLower = joinSpace ws := by
    apply map_id_of_fixed
    intro c hc
    rcases mem_joinSpace ws c hc with rfl | ⟨w, hw, hcw⟩
    · decide
    · exact ((hws w hw).2 c hcw).2.2
  have h2 : (joinSpace ws).filter keepChar = joinSpace ws := by
    apply List.filter_eq_self.mpr
    intro c hc
    rcases mem_joinSpace ws c hc with rfl | ⟨w, hw, hcw⟩
    · decide
    · exact ((hws w hw).2 c hcw).2.1
  rw [h1, pyStrip_joinSpace ws hwords, h2, pySplit_joinSpace ws hwords]

/-! ## Claim theorems -/

/-- C9: `get_processing_stats` reports `match_rate` equal to
`unique_matched_items / total_items * 100`, and 0 when `total_items` is 0;
and `clear_all_data` followed by `get_processing_stats` yields all counters 0
and match rate 0. -/
theorem stats_match_rate_clear (s : Store) :
    (0 < s.items.length →
      (get_processing_stats s).match_rate =
        ((get_processing_stats s).unique_matched_items : ℚ) /
          ((get_processing_stats s).total_items : ℚ) * 100) ∧
    (s.items.length = 0 → (get_processing_stats s).match_rate = 0) ∧
    get_processing_stats (clear_all_data s) = ⟨0, 0, 0, 0, 0⟩ := by
  refine ⟨?_, ?_, ?_⟩
  · intro h
    simp [get_processing_stats, h]
  · intro h
    simp [get_processing_stats, h]
  · rfl

/-- C9 witness: a store with one item and one match has match rate 100, and
clearing it zeroes the statistics. -/
theorem stats_match_rate_clear_witness :
    (get_processing_stats ⟨[⟨0, "a", "a", none, "w"⟩], [⟨0⟩], 1⟩).match_rate =
      ((get_processing_stats ⟨[⟨0, "a", "a", none, "w"⟩], [⟨0⟩], 1⟩).unique_matched_items : ℚ) /
        ((get_processing_stats ⟨[⟨0, "a", "a", none, "w"⟩], [⟨0⟩], 1⟩).total_items : ℚ) * 100 ∧
    get_processing_stats (clear_all_data ⟨[⟨0, "a", "a", none, "w"⟩], [⟨0⟩], 1⟩) =
      ⟨0, 0, 0, 0, 0⟩ :=
  ⟨(stats_match_rate_clear ⟨[⟨0, "a", "a", none, "w"⟩], [⟨0⟩], 1⟩).1 (by decide),
    (stats_match_rate_clear ⟨[⟨0, "a", "a", none, "w"⟩], [⟨0⟩], 1⟩).2.2⟩

/-- C2: the classifier is a pure, total, deterministic function of the eight
flags; for every flag combination it agrees with the spec's decision table
evaluated in the fixed priority order (first matching rule wins), the outcome
is one of the ten buckets, re-invocation yields the identical outcome, and an
input satisfying both rule 1's and rule 5's conditions selects rule 1. -/
theorem classifier_decision_table :
    ∀ c pn qty specs v kit mis obs : Bool,
      (outcomeOf (classifyFlags ⟨c, pn, qty, specs, v, kit, mis, obs⟩) =
        specEval ⟨c, pn, qty, specs, v, kit, mis, obs⟩) ∧
      (outcomeOf (classifyFlags ⟨c, pn, qty, specs, v, kit, mis, obs⟩) ∈ outcomes10) ∧
      (classifyFlags ⟨c, pn, qty, specs, v, kit, mis, obs⟩ =
        classifyFlags ⟨c, pn, qty, specs, v, kit, mis, obs⟩) ∧
      ((c && pn && qty && specs) = true → obs = true →
        outcomeOf (classifyFlags ⟨c, pn, qty, specs, v, kit, mis, obs⟩) =
          (QAClassificationLabel.CONSUMABLE_WITH_PN_SPEC_QTY, ConfidenceLevel.HIGH,
            ActionPathRAG.GREEN)) := by
  decide

/-- C2 witness: a material satisfying rule 1's and rule 5's conditions
simultaneously is classified by rule 1. -/
theorem classifier_decision_table_witness :
    outcomeOf (classifyFlags ⟨true, true, true, true, false, false, false, true⟩) =
      (QAClassificationLabel.CONSUMABLE_WITH_PN_SPEC_QTY, ConfidenceLevel.HIGH,
        ActionPathRAG.GREEN) :=
  (classifier_decision_table true true true true false false false true).2.2.2
    (by decide) (by decide)

/-- C10: presence of the optional attributes is decided by Python truthiness
of the raw values — a quantity of 0, an empty part number, an empty
specifications mapping and an empty vendor string all count as absent — and a
consumable material with a non-empty part number and quantity 0 is classified
`CONSUMABLE_NO_QTY` with MEDIUM confidence and AMBER path. -/
theorem classify_truthiness (m : MaterialData) :
    (m.quantity = some 0 → (flagsOf m).has_qty = false) ∧
    (m.part_number = some "" → (flagsOf m).has_pn = false) ∧
    (m.specifications = [] → (flagsOf m).has_specs = false) ∧
    (m.vendor_name = some "" → (flagsOf m).has_vendor = false) ∧
    (∀ p : String, m.consumable_jigs_tools = true → m.part_number = some p →
      p ≠ "" → m.quantity = some 0 →
      outcomeOf (classify_material m) =
        (QAClassificationLabel.CONSUMABLE_NO_QTY, ConfidenceLevel.MEDIUM,
          ActionPathRAG.AMBER)) := by
  refine ⟨?_, ?_, ?_, ?_, ?_⟩
  · intro h; simp [flagsOf, truthyNum, h]
  · intro h; simp [flagsOf, truthyStr, h]
  · intro h; simp [flagsOf, h]
  · intro h; simp [flagsOf, truthyStr, h]
  · intro p hc hpn hp hq
    simp [classify_material, classifyFlags, outcomeOf, flagsOf, truthyStr,
      truthyNum, hc, hpn, hq, hp]

/-- C10 witness: a consumable with part number "PN" and quantity 0 is
classified `CONSUMABLE_NO_QTY` / MEDIUM / AMBER. -/
theorem classify_truthiness_witness :
    outcomeOf (classify_material ⟨true, some "PN", some 0, [], none, false, false, false⟩) =
      (QAClassificationLabel.CONSUMABLE_NO_QTY, ConfidenceLevel.MEDIUM,
        ActionPathRAG.AMBER) :=
  (classify_truthiness ⟨true, some "PN", some 0, [], none, false, false, false⟩).2.2.2.2
    "PN" rfl rfl (by decide) rfl

/-- C6 counterexample: a lookup against a failing store and a successful
lookup that finds no records both return the empty list — the two outcomes
the claim requires to be distinguishable are identical. -/
theorem store_failure_empty_counterexample :
    find_similar_items_r true ⟨[⟨0, "bolt", "bolt", none, "w"⟩], [], 1⟩ "bolt" =
      find_similar_items_r false ⟨[], [], 0⟩ "bolt" ∧
    find_similar_items_r false ⟨[], [], 0⟩ "bolt" = [] ∧
    find_similar_items_r false ⟨[⟨0, "bolt", "bolt", none, "w"⟩, ⟨1, "x", "x", none, "w"⟩], [], 2⟩
        "bolt" ≠ [] := by
  decide

/-- C6 amended: a store failure during `find_similar_items` yields the empty
list, indistinguishable from a successful empty lookup; a failed `add_items`
also returns the empty id list (no partial ids), which for a non-empty batch
differs in length from the successful outcome, whose id sequence has exactly
one id per input position. -/
theorem store_failure_yields_empty (s : Store) (items : List ExtractedItem)
    (w name : String) :
    find_similar_items_r true s name = [] ∧
    (add_items_r false s items w).1.length = items.length ∧
    (add_items_r true s items w).1 = [] ∧
    (items ≠ [] → (add_items_r true s items w).1.length ≠ items.length) := by
  refine ⟨rfl, ?_, rfl, ?_⟩
  · simpa [add_items_r] using add_items_fst_length items s w
  · intro h
    simp [add_items_r]
    exact fun he => h (List.eq_nil_of_length_eq_zero he.symm)

/-- C6 witness: instantiation at a concrete store and a one-item batch. -/
theorem store_failure_yields_empty_witness :
    find_similar_items_r true ⟨[], [], 0⟩ "bolt" = [] ∧
    (add_items_r true ⟨[], [], 0⟩ [⟨"bolt", none⟩] "w").1.length ≠
      ([⟨"bolt", none⟩] : List ExtractedItem).length :=
  ⟨(store_failure_yields_empty ⟨[], [], 0⟩ [⟨"bolt", none⟩] "w" "bolt").1,
    (store_failure_yields_empty ⟨[], [], 0⟩ [⟨"bolt", none⟩] "w" "bolt").2.2.2
      (by decide)⟩

/-- C5 counterexample: the deduplication key is `name.lower().strip()`, not
the Normalizer's output — the names "bolt." and "bolt" have distinct keys, so
both materials survive deduplication although their normalized names are
equal. -/
theorem dedup_normalized_name_counterexample :
    deduplicate_materials [⟨"bolt."⟩, ⟨"bolt"⟩] = [⟨"bolt."⟩, ⟨"bolt"⟩] ∧
    normalizeName "bolt." = normalizeName "bolt" ∧
    dedupKey "bolt." ≠ dedupKey "bolt" := by
  decide

/-- C5 amended: deduplication keeps a subsequence of the batch (first
occurrence per key) and its key — the lower-cased, whitespace-trimmed raw
name — is pairwise distinct afterwards. -/
theorem dedup_by_lower_strip_key (materials : List Material) :
    (deduplicate_materials materials).Sublist materials ∧
    (deduplicate_materials materials).Pairwise
      (fun a b => dedupKey a.name ≠ dedupKey b.name) :=
  ⟨(deduplicate_materials_aux_spec materials []).1,
    (deduplicate_materials_aux_spec materials []).2.2⟩

/-- C3: best-match selection follows the fixed precedence — an EXACT
knowledge-base candidate is selected with reported confidence exactly 0.9;
else the highest-scoring supplier candidate when its score exceeds 0.7, kept
with its own score; else the highest-scoring knowledge-base candidate with
reported confidence 0.6 (hence capped at 0.6); else no best candidate — and
the match source is `hybrid` exactly when both candidate lists are non-empty,
else the name of the only non-empty list, else `no_match`. -/
theorem select_best_match_precedence (kb : List KBMatch) (sup : List SupplierMatch) :
    ((∃ k ∈ kb, k.match_type = "exact") →
      ∃ k ∈ kb, k.match_type = "exact" ∧
        select_best_match kb sup =
          some ⟨some k.record.id, k.record.material_name, k.record.part_number,
            9/10, "exact", "knowledge_base"⟩) ∧
    ((∀ k ∈ kb, k.match_type ≠ "exact") → ∀ x rest, sup = x :: rest →
      pyMaxBy (fun m => m.confidence_score) x rest ∈ sup ∧
      (∀ m ∈ sup, m.confidence_score ≤
        (pyMaxBy (fun m => m.confidence_score) x rest).confidence_score) ∧
      ((pyMaxBy (fun m => m.confidence_score) x rest).confidence_score > 7/10 →
        select_best_match kb sup =
          some ⟨none,
            (pyMaxBy (fun m => m.confidence_score) x rest).supplier_description,
            (pyMaxBy (fun m => m.confidence_score) x rest).supplier_part_number,
            (pyMaxBy (fun m => m.confidence_score) x rest).confidence_score,
            (pyMaxBy (fun m => m.confidence_score) x rest).match_type,
            "supplier_bom"⟩)) ∧
    ((∀ k ∈ kb, k.match_type ≠ "exact") →
      (sup = [] ∨ ∃ x rest, sup = x :: rest ∧
        (pyMaxBy (fun m => m.confidence_score) x rest).confidence_score ≤ 7/10) →
      (kb = [] → select_best_match kb sup = none) ∧
      (kb ≠ [] → ∃ k ∈ kb,
        (∀ q ∈ kb, q.confidence_score ≤ k.confidence_score) ∧
        select_best_match kb sup =
          some ⟨some k.record.id, k.record.material_name, k.record.part_number,
            6/10, "fuzzy", "knowledge_base"⟩)) ∧
    (kb ≠ [] → sup ≠ [] → determine_match_source kb sup = "hybrid") ∧
    (kb ≠ [] → sup = [] → determine_match_source kb sup = "knowledge_base") ∧
    (kb = [] → sup ≠ [] → determine_match_source kb sup = "supplier_bom") ∧
    (kb = [] → sup = [] → determine_match_source kb sup = "no_match") := by
  have hsrc :
      (kb ≠ [] → sup ≠ [] → determine_match_source kb sup = "hybrid") ∧
      (kb ≠ [] → sup = [] → determine_match_source kb sup = "knowledge_base") ∧
      (kb = [] → sup ≠ [] → determine_match_source kb sup = "supplier_bom") ∧
      (kb = [] → sup = [] → determine_match_source kb sup = "no_match") := by
    cases kb <;> cases sup <;> simp [determine_match_source]
  refine ⟨?_, ?_, ?_, hsrc.1, hsrc.2.1, hsrc.2.2.1, hsrc.2.2.2⟩
  · rintro ⟨k, hk, hke⟩
    have hs : (kb.find? (fun k => k.match_type == "exact")).isSome := by
      rw [List.find?_isSome]
      exact ⟨k, hk, by simpa using hke⟩
    obtain ⟨k0, hfind⟩ := Option.isSome_iff_exists.mp hs
    refine ⟨k0, List.mem_of_find?_eq_some hfind, by simpa using List.find?_some hfind, ?_⟩
    simp [select_best_match, hfind]
  · intro hne x rest hsup
    have hfind : kb.find? (fun k => k.match_type == "exact") = none := by
      rw [List.find?_eq_none]
      intro k hk
      simpa using hne k hk
    subst hsup
    refine ⟨pyMaxBy_mem _ rest x, fun m hm => pyMaxBy_le _ rest x m hm, ?_⟩
    intro hgt
    simp [select_best_match, hfind, hgt]
  · intro hne hsup
    have hfind : kb.find? (fun k => k.match_type == "exact") = none := by
      rw [List.find?_eq_none]
      intro k hk
      simpa using hne k hk
    have hred : select_best_match kb sup = bestKBFallback kb := by
      rcases hsup with rfl | ⟨x, rest, rfl, hle⟩
      · simp [select_best_match, hfind]
      · simp [select_best_match, hfind, not_lt.mpr hle]
    constructor
    · rintro rfl
      simp [hred, bestKBFallback]
    · intro hkb
      obtain ⟨k1, ks, rfl⟩ := List.exists_cons_of_ne_nil hkb
      refine ⟨pyMaxBy (fun m => m.confidence_score) k1 ks, pyMaxBy_mem _ ks k1,
        fun q hq => pyMaxBy_le _ ks k1 q hq, ?_⟩
      simp [hred, bestKBFallback]

/-- C3 witness: with one non-exact knowledge-base candidate and no supplier
candidates, the fallback branch selects it with reported confidence 0.6. -/
theorem select_best_match_precedence_witness :
    select_best_match [⟨⟨3, "bolt", "bolt", none, "w"⟩, "other", 1⟩] [] =
      some ⟨some 3, "bolt", none, 6/10, "fuzzy", "knowledge_base"⟩ := by
  obtain ⟨k, hk, -, hsel⟩ :=
    ((select_best_match_precedence [⟨⟨3, "bolt", "bolt", none, "w"⟩, "other", 1⟩] []).2.2.1
      (by decide) (Or.inl rfl)).2 (by decide)
  rw [List.mem_singleton] at hk
  rw [hsel, hk]

/-- Every candidate kept by the `_find_supplier_matches` loop scores above
the 0.3 threshold. -/
theorem mem_supplierCandidatesInOrder_gt (item : ExtractedItem)
    (bom : List SupplierItem) (c : SupplierMatch)
    (hc : c ∈ supplierCandidatesInOrder item bom) : 3/10 < c.confidence_score := by
  obtain ⟨sup, -, hsup⟩ := List.mem_filterMap.mp hc
  by_cases h : supplierConfidence item sup > 3/10
  · rw [if_pos h] at hsup
    cases hsup
    exact h
  · rw [if_neg h] at hsup
    cases hsup

/-- A supplier row whose confidence exceeds the threshold contributes its
candidate to the loop's output. -/
theorem supplierCandidate_mem (item : ExtractedItem) (bom : List SupplierItem)
    (sup : SupplierItem) (hs : sup ∈ bom)
    (h : 3/10 < supplierConfidence item sup) :
    (⟨sup.description, sup.part_number, supplierConfidence item sup,
      if supplierConfidence item sup > 9/10 then "part_number" else "description"⟩ :
        SupplierMatch) ∈ supplierCandidatesInOrder item bom := by
  refine List.mem_filterMap.mpr ⟨sup, hs, ?_⟩
  rw [if_pos h]

/-- A positive token-set intersection forces both token lists (and hence both
strings) to be non-empty. -/
theorem commonCount_pos_ne_nil (xs ys : List (List Char))
    (h : 0 < commonCount xs ys) : xs ≠ [] ∧ ys ≠ [] := by
  unfold commonCount at h
  obtain ⟨t, ht⟩ := List.exists_mem_of_ne_nil _ (List.length_pos.mp h)
  rw [List.mem_filter] at ht
  have hx : t ∈ xs := List.mem_dedup.mp ht.1
  have hy : t ∈ ys := of_decide_eq_true ht.2
  exact ⟨List.ne_nil_of_mem hx, List.ne_nil_of_mem hy⟩

/-- A string whose token list is non-empty is itself non-empty. -/
theorem tokens_ne_nil_str_ne (s : String) (h : pySplit s.data ≠ []) : s ≠ "" := by
  intro he
  subst he
  exact h rfl

/-- C4: supplier candidate generation — score 0.95 and match type
`part_number` on a case-sensitive exact part-number match of two non-empty
part numbers; otherwise the capped token-overlap score with match type
`description` when the case-folded token sets intersect, otherwise score 0;
candidates scoring at most 0.3 never appear; output is sorted by score
descending and ties keep the original supplier-BOM order. -/
theorem supplier_candidate_generation (item : ExtractedItem) (bom : List SupplierItem) :
    (∀ sup ∈ bom, ∀ p : String, item.part_number = some p → p ≠ "" →
      sup.part_number = some p →
      supplierConfidence item sup = 95/100 ∧
      (⟨sup.description, sup.part_number, 95/100, "part_number"⟩ : SupplierMatch) ∈
        find_supplier_matches item bom) ∧
    (∀ sup ∈ bom,
      (truthyStr item.part_number && truthyStr sup.part_number &&
        (item.part_number == sup.part_number)) = false →
      (0 < commonCount (tokensOf item.qa_material_name) (tokensOf sup.description) →
        supplierConfidence item sup =
          min (9/10)
            ((commonCount (tokensOf item.qa_material_name) (tokensOf sup.description) : ℚ) /
              (max (tokensOf item.qa_material_name).length
                (tokensOf sup.description).length) * (8/10)) ∧
        (3/10 < supplierConfidence item sup →
          (⟨sup.description, sup.part_number, supplierConfidence item sup,
            "description"⟩ : SupplierMatch) ∈ find_supplier_matches item bom)) ∧
      (commonCount (tokensOf item.qa_material_name) (tokensOf sup.description) = 0 →
        supplierConfidence item sup = 0)) ∧
    (∀ c ∈ find_supplier_matches item bom, 3/10 < c.confidence_score) ∧
    (find_supplier_matches item bom).Pairwise
      (fun a b => b.confidence_score ≤ a.confidence_score) ∧
    (∀ q : ℚ,
      (find_supplier_matches item bom).filter
          (fun c => decide (c.confidence_score = q)) =
        (supplierCandidatesInOrder item bom).filter
          (fun c => decide (c.confidence_score = q))) := by
  have hmemsort : ∀ c : SupplierMatch,
      c ∈ find_supplier_matches item bom ↔ c ∈ supplierCandidatesInOrder item bom :=
    fun c =>
      (pySortDesc_perm (fun m : SupplierMatch => m.confidence_score)
        (supplierCandidatesInOrder item bom)).mem_iff
  have hsorted : (find_supplier_matches item bom).Pairwise
      (fun a b => b.confidence_score ≤ a.confidence_score) := by
    show (pySortDesc (fun m => m.confidence_score)
      (supplierCandidatesInOrder item bom)).Pairwise _
    exact pySortDesc_pairwise _ _
  have hstable : ∀ q : ℚ,
      (find_supplier_matches item bom).filter
          (fun c => decide (c.confidence_score = q)) =
        (supplierCandidatesInOrder item bom).filter
          (fun c => decide (c.confidence_score = q)) := by
    intro q
    show (pySortDesc (fun m => m.confidence_score)
        (supplierCandidatesInOrder item bom)).filter _ = _
    exact pySortDesc_filter _ q _
  refine ⟨?_, ?_, ?_, hsorted, hstable⟩
  · intro sup hs p hip hpne hsp
    have hconf : supplierConfidence item sup = 95/100 := by
      simp [supplierConfidence, hip, hsp, truthyStr, hpne]
    refine ⟨hconf, ?_⟩
    rw [hmemsort]
    have := supplierCandidate_mem item bom sup hs (by rw [hconf]; norm_num)
    rw [hconf] at this
    simpa [show ((95 : ℚ)/100 > 9/10) = True by norm_num] using this
  · intro sup hs hpn
    constructor
    · intro hcommon
      have hne := commonCount_pos_ne_nil _ _ hcommon
      have hm : lowerStr item.qa_material_name ≠ "" :=
        tokens_ne_nil_str_ne _ hne.1
      have hd : lowerStr sup.description ≠ "" :=
        tokens_ne_nil_str_ne _ hne.2
      have hcommon2 : 0 < commonCount (pySplit (lowerStr item.qa_material_name).data)
          (pySplit (lowerStr sup.description).data) := hcommon
      have hconf : supplierConfidence item sup =
          min (9/10)
            ((commonCount (tokensOf item.qa_material_name) (tokensOf sup.description) : ℚ) /
              (max (tokensOf item.qa_material_name).length
                (tokensOf sup.description).length) * (8/10)) := by
        simp [supplierConfidence, hpn, tokensOf, hm, hd, hcommon2]
      refine ⟨hconf, ?_⟩
      intro hgt
      rw [hmemsort]
      have hmem := supplierCandidate_mem item bom sup hs hgt
      have htype : ¬ supplierConfidence item sup > 9/10 := by
        rw [hconf]
        exact not_lt.mpr (le_trans (min_le_left _ _) (by norm_num))
      rwa [if_neg htype] at hmem
    · intro hcommon
      have hc0 : ¬ (0 < commonCount (pySplit (lowerStr item.qa_material_name).data)
          (pySplit (lowerStr sup.description).data)) := by
        have : commonCount (pySplit (lowerStr item.qa_material_name).data)
            (pySplit (lowerStr sup.description).data) = 0 := hcommon
        rw [this]
        exact lt_irrefl 0
      by_cases hb : (lowerStr item.qa_material_name != "" &&
          lowerStr sup.description != "") = true
      · simp only [supplierConfidence, hpn, Bool.false_eq_true, if_false, hb,
          if_true]
        rw [if_neg hc0]
      · simp only [supplierConfidence, hpn, Bool.false_eq_true, if_false]
        rw [if_neg (by simpa using hb)]
  · intro c hc
    exact mem_supplierCandidatesInOrder_gt item bom c ((hmemsort c).mp hc)

/-- C4 witness: an exact part-number match scores 0.95 and appears in the
ranked candidate list with match type `part_number`. -/
theorem supplier_candidate_generation_witness :
    supplierConfidence ⟨"hex bolt", some "PN1"⟩ ⟨"hex bolt stainless", some "PN1"⟩ =
      95/100 ∧
    (⟨"hex bolt stainless", some "PN1", 95/100, "part_number"⟩ : SupplierMatch) ∈
      find_supplier_matches ⟨"hex bolt", some "PN1"⟩
        [⟨"hex bolt stainless", some "PN1"⟩] :=
  (supplier_candidate_generation ⟨"hex bolt", some "PN1"⟩
      [⟨"hex bolt stainless", some "PN1"⟩]).1
    ⟨"hex bolt stainless", some "PN1"⟩ (List.mem_singleton_self _) "PN1" rfl
    (by decide) rfl

/-- C7 counterexample: inserting a material whose name normalizes to the
empty string and querying with a name of equal normalized form returns
nothing — the inserted record is not among the results although its
normalized name equals the normalized query. -/
theorem find_exact_round_trip_counterexample :
    ((add_items ⟨[], [], 0⟩ [⟨"#", none⟩] "w").2.items.map
      (fun r => r.normalized_name)) = [normalizeName "#"] ∧
    find_similar_items (add_items ⟨[], [], 0⟩ [⟨"#", none⟩] "w").2 "#" = [] := by
  decide

/-- C7 amended: `find_exact` normalizes the query and, when the normalized
query is non-empty, returns at most 5 records whose normalized name equals
it, newest first; the round trip holds for an inserted material whose
normalized name is non-empty and shared by at most four later-inserted
records; a query whose normalized form is empty returns nothing even when
matching records exist. -/
theorem find_exact_round_trip (s : Store) (batch : List ExtractedItem)
    (w name : String) :
    (∀ e ∈ find_similar_items (add_items s batch w).2 name,
      e.record ∈ (add_items s batch w).2.items ∧
      e.record.normalized_name = normalizeName name ∧
      e.match_type = "exact" ∧ e.confidence_score = 1) ∧
    (find_similar_items (add_items s batch w).2 name).length ≤ 5 ∧
    (Store.WF s →
      ((find_similar_items (add_items s batch w).2 name).map
        (fun e => e.record.id)).Pairwise (· > ·)) ∧
    (normalizeName name = "" →
      find_similar_items (add_items s batch w).2 name = []) ∧
    (∀ i (hi : i < batch.length),
      normalizeName name = normalizeName (batch.get ⟨i, hi⟩).qa_material_name →
      normalizeName name ≠ "" →
      ((batch.drop (i + 1)).filter (fun it =>
        normalizeName it.qa_material_name == normalizeName name)).length ≤ 4 →
      ∃ e ∈ find_similar_items (add_items s batch w).2 name,
        e.record.id = s.nextId + i ∧
        e.record.material_name = (batch.get ⟨i, hi⟩).qa_material_name ∧
        e.record.workflow_id = w) := by
  refine ⟨fun e he => find_similar_items_sound _ _ e he,
    find_similar_items_length _ _, ?_, ?_, ?_⟩
  · intro hwf
    exact find_similar_items_ids_sorted _ (Store.WF_add s hwf batch w).1 name
  · intro hq
    simp [find_similar_items, hq]
  · intro i hi hq hne hcount
    exact ⟨_, find_after_add_self s batch w i hi name hq hne hcount, rfl, rfl, rfl⟩

/-- C7 witness: inserting "Bolt" into an empty store and querying "bolt"
finds the freshly inserted record (id 0). -/
theorem find_exact_round_trip_witness :
    ∃ e ∈ find_similar_items (add_items ⟨[], [], 0⟩ [⟨"Bolt", none⟩] "w").2 "bolt",
      e.record.id = 0 + 0 ∧ e.record.material_name = "Bolt" ∧
      e.record.workflow_id = "w" :=
  (find_exact_round_trip ⟨[], [], 0⟩ [⟨"Bolt", none⟩] "w" "bolt").2.2.2.2 0
    (by decide) (by decide) (by decide) (by decide)

/-- C1 counterexample: with an empty prior store, a one-material batch and no
supplier BOM, the material's knowledge-base candidate list contains exactly
the record created from that same material in the same batch (the id returned
for it by the insert), and the pipeline reports a previous match for it. -/
theorem match_self_counterexample :
    (kbCandidates ⟨[], [], 0⟩ [⟨"bolt", none⟩] "w" ⟨"bolt", none⟩).map
        (fun e => e.record.id) = [0] ∧
    (add_items ⟨[], [], 0⟩ [⟨"bolt", none⟩] "w").1 = [0] ∧
    (match_items_with_knowledge_base ⟨[], [], 0⟩ [⟨"bolt", none⟩] [] "w").map
        (fun r => r.has_previous_match) = [true] := by
  decide

/-- C1 amended: the knowledge-base candidates for each material of the batch
are drawn from the store after the whole batch has been inserted — every
candidate is a post-insertion record whose normalized name equals the
material's — so a material whose non-empty normalized name is shared by at
most four later batch members is matched against its own record; the pipeline
emits one result per batch material. -/
theorem kb_candidates_post_insertion (s : Store) (batch : List ExtractedItem)
    (bom : List SupplierItem) (w : String) (i : ℕ) (hi : i < batch.length) :
    (∀ e ∈ kbCandidates s batch w (batch.get ⟨i, hi⟩),
      e.record ∈ (add_items s batch w).2.items ∧
      e.record.normalized_name =
        normalizeName (batch.get ⟨i, hi⟩).qa_material_name) ∧
    (normalizeName (batch.get ⟨i, hi⟩).qa_material_name ≠ "" →
      ((batch.drop (i + 1)).filter (fun it =>
        normalizeName it.qa_material_name ==
          normalizeName (batch.get ⟨i, hi⟩).qa_material_name)).length ≤ 4 →
      ∃ e ∈ kbCandidates s batch w (batch.get ⟨i, hi⟩),
        e.record.id = s.nextId + i) ∧
    (match_items_with_knowledge_base s batch bom w).length = batch.length := by
  refine ⟨?_, ?_, ?_⟩
  · intro e he
    exact ⟨(find_similar_items_sound _ _ e he).1, (find_similar_items_sound _ _ e he).2.1⟩
  · intro hne hcount
    exact ⟨_, find_after_add_self s batch w i hi
      (batch.get ⟨i, hi⟩).qa_material_name rfl hne hcount, rfl⟩
  · simp [match_items_with_knowledge_base]

/-- C1 witness: instantiation at an empty prior store and a one-material
batch — the material is matched against its own record. -/
theorem kb_candidates_post_insertion_witness :
    ∃ e ∈ kbCandidates ⟨[], [], 0⟩ [⟨"bolt", none⟩] "w" ⟨"bolt", none⟩,
      e.record.id = 0 + 0 :=
  (kb_candidates_post_insertion ⟨[], [], 0⟩ [⟨"bolt", none⟩] [] "w" 0
    (by decide)).2.1 (by decide) (by decide)

/-- C8: the Normalizer is idempotent — `normalize(normalize(x)) =
normalize(x)` for every string — and both null and empty input yield the
empty string. -/
theorem normalize_idempotent :
    normalize_material_name none = "" ∧
    normalize_material_name (some "") = "" ∧
    ∀ s : String, normalizeName (normalizeName s) = normalizeName s := by
  refine ⟨rfl, rfl, ?_⟩
  intro s
  by_cases h : s = ""
  · subst h; rfl
  · show normalize_material_name (some (normalize_material_name (some s))) =
      normalize_material_name (some s)
    rw [show normalize_material_name (some s) = String.mk (normalizeL s.data) by
      simp [normalize_material_name, h]]
    by_cases h2 : String.mk (normalizeL s.data) = ""
    · rw [show normalize_material_name (some (String.mk (normalizeL s.data))) = ""
        by simp [normalize_material_name, h2]]
      exact h2.symm
    · rw [show normalize_material_name (some (String.mk (normalizeL s.data))) =
          String.mk (normalizeL (String.mk (normalizeL s.data)).data) by
        simp [normalize_material_name, h2]]
      show String.mk (normalizeL (normalizeL s.data)) = String.mk (normalizeL s.data)
      rw [normalizeL_idem]

end Bom
